import Mathlib

set_option maxRecDepth 10000

/-!
# Verification of the stock-mento portfolio analytics engine

Shallow embedding of the stock-mento repository's portfolio logic:
the Position Ledger accounting replay (modelled from the spec, since the
backend engine source is not part of the frontend tree), and the frontend
aggregation/ordering/pagination/logging routines embedded directly from
the TypeScript source (`CompactPortfolioSummary.tsx`, `AccountPortfolio.tsx`,
`PortfolioFilters.tsx`, `usePortfolio.ts`, `YearlyReturns.tsx`,
`TransactionHistory.tsx`, `logger.ts`).

Monetary quantities and share counts are modelled as rationals (`ℚ`):
the source uses JavaScript numbers on exact decimal inputs and the claims
under study are about exact accounting identities, not rounding.
-/

namespace StockMento

/-! ## Position Ledger (spec-modelled)

The backend accounting engine is not present in the frontend source tree;
the definitions below are modelled from the spec, §4.3 "Position Ledger". -/

/-- The action type of a ledger transaction (spec §3 "Transaction"). -/
inductive TxAction where
  | buy
  | sell
  | dividend
  | interest
  | deposit
  | withdrawal
  | other
  deriving Repr, DecidableEq

/-- Modelled from the spec: the fields of a Transaction that the Position
Ledger replay consumes (spec §3; the backend Transaction record itself is
not in the frontend source tree). -/
structure Tx where
  action : TxAction
  qty : ℚ
  unit_price : ℚ
  amount : ℚ
  fees : ℚ
  taxes : ℚ
  deriving Repr, DecidableEq

/-- Modelled from the spec: the mutable per-(account, security) Position
aggregate (spec §3 "Position"; the backend Position record is not in the
frontend source tree). -/
structure Position where
  shares_held : ℚ
  average_cost : ℚ
  total_cost_basis : ℚ
  realized_gain_loss : ℚ
  dividend_received : ℚ
  interest_received : ℚ
  deriving Repr, DecidableEq

/-- The empty position a replay starts from. -/
def Position.empty : Position :=
  { shares_held := 0
    average_cost := 0
    total_cost_basis := 0
    realized_gain_loss := 0
    dividend_received := 0
    interest_received := 0 }

/-- A diagnostic accumulated during replay, keyed by the (account, security)
pair it concerns (spec §7: diagnostics are accumulated, not thrown). -/
inductive Diag where
  | oversellWarning (account security : String)
  deriving Repr, DecidableEq

/-- Modelled from the spec, §4.3 Buy: `new_shares = shares_held + qty`;
`new_cost_basis = total_cost_basis + amount + fees + taxes`;
`average_cost = new_cost_basis / new_shares`, guarded against division by
zero (`new_shares == 0` leaves `average_cost` at its prior value). -/
def applyBuy (p : Position) (t : Tx) : Position :=
  let new_shares := p.shares_held + t.qty
  let new_cost_basis := p.total_cost_basis + t.amount + t.fees + t.taxes
  { p with
    shares_held := new_shares
    total_cost_basis := new_cost_basis
    average_cost := if new_shares = 0 then p.average_cost else new_cost_basis / new_shares }

/-- Modelled from the spec, §4.3 Sell: `realized = (unit_price − average_cost)
× qty − fees − taxes` added to `realized_gain_loss`; `shares_held -= qty`,
`total_cost_basis -= average_cost × qty`, `average_cost` unchanged.
Oversell policy (`qty > shares_held`): clamp `shares_held` to zero (and
`total_cost_basis` with it, per the invariant that the basis is zero when no
shares are held), flag the account+security pair with an `OversellWarning`,
do not abort. Returns the updated position and the optional diagnostic. -/
def applySell (account security : String) (p : Position) (t : Tx) :
    Position × Option Diag :=
  let realized := (t.unit_price - p.average_cost) * t.qty - t.fees - t.taxes
  if p.shares_held < t.qty then
    ({ p with
        shares_held := 0
        total_cost_basis := 0
        realized_gain_loss := p.realized_gain_loss + realized },
      some (.oversellWarning account security))
  else
    ({ p with
        shares_held := p.shares_held - t.qty
        total_cost_basis := p.total_cost_basis - p.average_cost * t.qty
        realized_gain_loss := p.realized_gain_loss + realized },
      none)

/-- Modelled from the spec, §4.3: one replay step over a (account, security)
group. Dividends and interest increment their lifetime counters; cash
actions do not touch the Position. -/
def step (account security : String) (st : Position × List Diag) (t : Tx) :
    Position × List Diag :=
  match t.action with
  | .buy => (applyBuy st.1 t, st.2)
  | .sell =>
      let (p, d) := applySell account security st.1 t
      (p, st.2 ++ d.toList)
  | .dividend => ({ st.1 with dividend_received := st.1.dividend_received + t.amount }, st.2)
  | .interest => ({ st.1 with interest_received := st.1.interest_received + t.amount }, st.2)
  | .deposit => st
  | .withdrawal => st
  | .other => st

/-- Modelled from the spec, §4.3: replay a chronologically ordered
transaction group of one (account, security) pair from the empty position,
accumulating diagnostics. -/
def replay (account security : String) (txs : List Tx) : Position × List Diag :=
  txs.foldl (step account security) (Position.empty, [])

/-- Buy `qty` shares at unit price `price` with no fees or taxes. -/
def buyTx (qty price : ℚ) : Tx :=
  { action := .buy, qty := qty, unit_price := price, amount := qty * price, fees := 0, taxes := 0 }

/-- Sell `qty` shares at unit price `price` with no fees or taxes. -/
def sellTx (qty price : ℚ) : Tx :=
  { action := .sell, qty := qty, unit_price := price, amount := qty * price, fees := 0, taxes := 0 }

end StockMento

namespace StockMento

/-- C1: buy 10 @ 1000 then buy 10 @ 1200 yields average_cost 1100 and
shares_held 20; a further sell 5 @ 1300 adds 1000 to realized_gain_loss,
leaves shares_held 15 and average_cost 1100; and in general a sell never
changes the average cost. -/
theorem c1_average_cost_scenario :
    (∀ (a s : String) (p : Position) (t : Tx),
      ((applySell a s p t).1).average_cost = p.average_cost) ∧
    (replay "acc" "sec" [buyTx 10 1000, buyTx 10 1200]).1.average_cost = 1100 ∧
    (replay "acc" "sec" [buyTx 10 1000, buyTx 10 1200]).1.shares_held = 20 ∧
    (replay "acc" "sec" [buyTx 10 1000, buyTx 10 1200, sellTx 5 1300]).1.realized_gain_loss
      = (replay "acc" "sec" [buyTx 10 1000, buyTx 10 1200]).1.realized_gain_loss + 1000 ∧
    (replay "acc" "sec" [buyTx 10 1000, buyTx 10 1200, sellTx 5 1300]).1.shares_held = 15 ∧
    (replay "acc" "sec" [buyTx 10 1000, buyTx 10 1200, sellTx 5 1300]).1.average_cost = 1100 := by
  refine ⟨fun a s p t => ?_, ?_, ?_, ?_, ?_, ?_⟩
  · unfold applySell
    split_ifs <;> rfl
  all_goals
    norm_num [replay, step, applyBuy, applySell, buyTx, sellTx, Position.empty]

/-- One replay step keeps the held share count nonnegative, provided the
transaction's quantity is nonnegative. -/
lemma step_shares_nonneg (a s : String) (st : Position × List Diag) (t : Tx)
    (hst : 0 ≤ st.1.shares_held) (ht : 0 ≤ t.qty) :
    0 ≤ (step a s st t).1.shares_held := by
  rcases st with ⟨p, ds⟩
  rcases t with ⟨act, qty, up, am, fe, ta⟩
  cases act <;> simp_all [step, applyBuy, applySell]
  · linarith
  · split_ifs with h <;> simp_all

/-- Replaying any transaction list with nonnegative quantities from a state
with nonnegative held shares keeps the held share count nonnegative. -/
lemma foldl_step_shares_nonneg (a s : String) (txs : List Tx) :
    ∀ st : Position × List Diag, 0 ≤ st.1.shares_held →
      (∀ t ∈ txs, 0 ≤ t.qty) → 0 ≤ (txs.foldl (step a s) st).1.shares_held := by
  induction txs with
  | nil => intro st hst _; simpa using hst
  | cons t ts ih =>
      intro st hst hq
      simp only [List.foldl_cons]
      exact ih _ (step_shares_nonneg a s st t hst (hq t (by simp)))
        (fun u hu => hq u (by simp [hu]))

/-- C2: for every transaction sequence with nonnegative quantities, after
replaying any prefix the held share count is nonnegative; and the spec's
oversell scenario (sell 30 when 15 are held) clamps shares_held to 0 and
records an OversellWarning for the account+security pair instead of
aborting (the replay still returns a state). -/
theorem c2_shares_never_negative :
    (∀ (a s : String) (txs : List Tx) (n : ℕ), (∀ t ∈ txs, 0 ≤ t.qty) →
      0 ≤ (replay a s (txs.take n)).1.shares_held) ∧
    (replay "acc" "sec" [buyTx 15 1000, sellTx 30 1200]).1.shares_held = 0 ∧
    (replay "acc" "sec" [buyTx 15 1000, sellTx 30 1200]).2
      = [Diag.oversellWarning "acc" "sec"] := by
  refine ⟨fun a s txs n hq => ?_, ?_, ?_⟩
  · exact foldl_step_shares_nonneg a s (txs.take n) (Position.empty, [])
      (by simp [Position.empty]) (fun t ht => hq t (List.mem_of_mem_take ht))
  · norm_num [replay, step, applyBuy, applySell, buyTx, sellTx, Position.empty]
  · norm_num [replay, step, applyBuy, applySell, buyTx, sellTx, Position.empty,
      Option.toList]

/-- C2 witness: the universally quantified part instantiated at a concrete
two-transaction sequence. -/
theorem c2_shares_never_negative_witness :
    0 ≤ (replay "a" "s" ([buyTx 1 5, sellTx 2 5].take 2)).1.shares_held :=
  c2_shares_never_negative.1 "a" "s" [buyTx 1 5, sellTx 2 5] 2
    (by intro t ht; fin_cases ht <;> norm_num [buyTx, sellTx])

/-- C3: replay is a deterministic (pure) function of its input: two runs on
the same transaction sequence produce identical Position state and
diagnostics. -/
theorem c3_replay_deterministic (a s : String) (txs₁ txs₂ : List Tx)
    (h : txs₁ = txs₂) : replay a s txs₁ = replay a s txs₂ := by
  rw [h]

/-- C3 witness: two runs on the same concrete sequence agree. -/
theorem c3_replay_deterministic_witness :
    replay "acc" "sec" [buyTx 10 1000] = replay "acc" "sec" [buyTx 10 1000] :=
  c3_replay_deterministic "acc" "sec" [buyTx 10 1000] [buyTx 10 1000] rfl

/-! ## Per-account-type return rate (`CompactPortfolioSummary.tsx`) -/

/-- Embedded from `CompactPortfolioSummary.tsx` (the `returnRate` constant):
`total_investment > 0 ? (total_gain_loss / total_investment) * 100 : 0`. -/
def returnRate (total_investment total_gain_loss : ℚ) : ℚ :=
  if 0 < total_investment then total_gain_loss / total_investment * 100 else 0

/-- C4: the return rate is `total_gain_loss / total_investment × 100` when
`total_investment > 0` and `0` otherwise — in particular `0` (not a
division by zero) when `total_investment = 0`; the division is only
evaluated under the positivity guard. -/
theorem c4_return_rate_guard :
    (∀ g : ℚ, returnRate 0 g = 0) ∧
    (∀ inv g : ℚ, 0 < inv → returnRate inv g = g / inv * 100) ∧
    (∀ inv g : ℚ, ¬ 0 < inv → returnRate inv g = 0) := by
  refine ⟨fun g => by simp [returnRate], fun inv g h => by simp [returnRate, h],
    fun inv g h => by simp [returnRate, h]⟩

/-- C4 witness: the guarded branch evaluated at investment 200, gain 50. -/
theorem c4_return_rate_guard_witness :
    returnRate 200 50 = 50 / 200 * 100 :=
  c4_return_rate_guard.2.1 200 50 (by norm_num)

/-! ## Canonical display ordering (`CompactPortfolioSummary.tsx`,
`AccountPortfolio.tsx`) -/

/-- Embedded from `getOwnerOrder` in `CompactPortfolioSummary.tsx` /
`AccountPortfolio.tsx`: a fixed priority map (혜란 → 1, 유신 → 2, 민호 → 3)
with `|| 999` fallback for owners not in the map. -/
def getOwnerOrder (owner : String) : ℕ :=
  if owner = "혜란" then 1
  else if owner = "유신" then 2
  else if owner = "민호" then 3
  else 999

/-- Embedded from `getAccountTypeOrder` in `CompactPortfolioSummary.tsx` /
`AccountPortfolio.tsx`: a fixed priority map (연금저축 → 1, ISA → 2,
종합매매 → 3, 종합매매 해외 → 4) with `|| 999` fallback. -/
def getAccountTypeOrder (t : String) : ℕ :=
  if t = "연금저축" then 1
  else if t = "ISA" then 2
  else if t = "종합매매" then 3
  else if t = "종합매매 해외" then 4
  else 999

/-- The ascending-by-key comparison the component's `.sort` uses
(`getOwnerOrder(a) - getOwnerOrder(b)`, resp. the account-type variant). -/
def keyLe {α : Type} (k : α → ℕ) (a b : α) : Prop := k a ≤ k b

instance {α : Type} (k : α → ℕ) : DecidableRel (keyLe k) :=
  fun a b => inferInstanceAs (Decidable (k a ≤ k b))

instance {α : Type} (k : α → ℕ) : IsTotal α (keyLe k) :=
  ⟨fun a b => le_total (k a) (k b)⟩

instance {α : Type} (k : α → ℕ) : IsTrans α (keyLe k) :=
  ⟨fun _ _ _ => le_trans⟩

/-- The stable sort (JavaScript `Array.prototype.sort` is stable) by an
ascending numeric key, as the components apply to owner and account-type
entry lists. -/
def sortByKey {α : Type} (k : α → ℕ) (l : List α) : List α :=
  List.insertionSort (keyLe k) l

/-- Inserting an element whose key equals `v` prepends it to the `v`-key
sublist. -/
lemma filter_orderedInsert_self {α : Type} (k : α → ℕ) (v : ℕ) (a : α)
    (l : List α) (ha : k a = v) :
    ((l.orderedInsert (keyLe k) a).filter fun x => k x = v)
      = a :: (l.filter fun x => k x = v) := by
  induction l with
  | nil => simp [List.orderedInsert, ha]
  | cons b t ih =>
      by_cases hab : keyLe k a b
      · rw [List.orderedInsert_of_le _ _ hab]
        simp [List.filter_cons, ha]
      · have hbv : ¬ (k b = v) := by
          subst ha
          simp only [keyLe, not_le] at hab
          omega
        simp [List.orderedInsert, hab, List.filter_cons, hbv, ih]

/-- Inserting an element whose key differs from `v` leaves the `v`-key
sublist unchanged. -/
lemma filter_orderedInsert_ne {α : Type} (k : α → ℕ) (v : ℕ) (a : α)
    (l : List α) (ha : ¬ (k a = v)) :
    ((l.orderedInsert (keyLe k) a).filter fun x => k x = v)
      = l.filter fun x => k x = v := by
  induction l with
  | nil => simp [List.orderedInsert, ha]
  | cons b t ih =>
      by_cases hab : keyLe k a b
      · rw [List.orderedInsert_of_le _ _ hab]
        simp [List.filter_cons, ha]
      · simp [List.orderedInsert, hab, List.filter_cons, ih]

/-- Stability of the key sort: every equal-key class keeps its input
order. -/
lemma filter_sortByKey {α : Type} (k : α → ℕ) (v : ℕ) (l : List α) :
    ((sortByKey k l).filter fun x => k x = v) = l.filter fun x => k x = v := by
  induction l with
  | nil => rfl
  | cons a t ih =>
      have hcons : sortByKey k (a :: t)
          = List.orderedInsert (keyLe k) a (sortByKey k t) := rfl
      rw [hcons]
      by_cases ha : k a = v
      · rw [filter_orderedInsert_self k v a _ ha, ih]
        simp [List.filter_cons, ha]
      · rw [filter_orderedInsert_ne k v a _ ha, ih]
        simp [List.filter_cons, ha]

/-- The key sort produces a permutation sorted ascending by key. -/
lemma sortByKey_sorted_perm {α : Type} (k : α → ℕ) (l : List α) :
    (sortByKey k l).Sorted (keyLe k) ∧ List.Perm (sortByKey k l) l :=
  ⟨List.sorted_insertionSort (keyLe k) l, List.perm_insertionSort (keyLe k) l⟩

/-- When every key is at most 999, elements with key 999 sort after all
elements with smaller keys. -/
lemma sortByKey_unknown_last {α : Type} (k : α → ℕ) (hk : ∀ a, k a ≤ 999)
    (l : List α) :
    (sortByKey k l).Pairwise (fun a b => k a = 999 → k b = 999) := by
  refine List.Pairwise.imp_of_mem ?_ (sortByKey_sorted_perm k l).1
  intro a b _ hb hab h999
  have := hk b
  simp only [keyLe] at hab
  omega

/-- Every owner priority is at most 999. -/
lemma getOwnerOrder_le : ∀ s, getOwnerOrder s ≤ 999 := by
  intro s
  unfold getOwnerOrder
  split_ifs <;> omega

/-- Every account-type priority is at most 999. -/
lemma getAccountTypeOrder_le : ∀ s, getAccountTypeOrder s ≤ 999 := by
  intro s
  unfold getAccountTypeOrder
  split_ifs <;> omega

/-- C5: the fixed owner priority map is 혜란 = 1, 유신 = 2, 민호 = 3 with
fallback 999 for any other owner; the fixed account-type priority map is
연금저축 = 1, ISA = 2, 종합매매 = 3, 종합매매 해외 = 4 with the same 999
fallback; sorting by either key yields a permutation of the input sorted
ascending by priority, in which every element with priority 999 (unknown)
comes after all elements with smaller priority (known), and each
equal-priority class — in particular the unknown owners — keeps its input
order (stability). -/
theorem c5_canonical_ordering :
    (getOwnerOrder "혜란" = 1 ∧ getOwnerOrder "유신" = 2 ∧
      getOwnerOrder "민호" = 3) ∧
    (∀ s, s ≠ "혜란" → s ≠ "유신" → s ≠ "민호" → getOwnerOrder s = 999) ∧
    (getAccountTypeOrder "연금저축" = 1 ∧ getAccountTypeOrder "ISA" = 2 ∧
      getAccountTypeOrder "종합매매" = 3 ∧
      getAccountTypeOrder "종합매매 해외" = 4) ∧
    (∀ s, s ≠ "연금저축" → s ≠ "ISA" → s ≠ "종합매매" →
      s ≠ "종합매매 해외" → getAccountTypeOrder s = 999) ∧
    (∀ l : List String,
      (sortByKey getOwnerOrder l).Sorted (keyLe getOwnerOrder) ∧
      List.Perm (sortByKey getOwnerOrder l) l ∧
      (sortByKey getOwnerOrder l).Pairwise
        (fun a b => getOwnerOrder a = 999 → getOwnerOrder b = 999) ∧
      (∀ v, ((sortByKey getOwnerOrder l).filter fun s => getOwnerOrder s = v)
        = l.filter fun s => getOwnerOrder s = v)) ∧
    (∀ l : List String,
      (sortByKey getAccountTypeOrder l).Sorted (keyLe getAccountTypeOrder) ∧
      List.Perm (sortByKey getAccountTypeOrder l) l ∧
      (sortByKey getAccountTypeOrder l).Pairwise
        (fun a b => getAccountTypeOrder a = 999 → getAccountTypeOrder b = 999) ∧
      (∀ v, ((sortByKey getAccountTypeOrder l).filter
          fun s => getAccountTypeOrder s = v)
        = l.filter fun s => getAccountTypeOrder s = v)) := by
  refine ⟨⟨rfl, rfl, rfl⟩, ?_, ⟨rfl, rfl, rfl, rfl⟩, ?_, ?_, ?_⟩
  · intro s h1 h2 h3
    simp [getOwnerOrder, h1, h2, h3]
  · intro s h1 h2 h3 h4
    simp [getAccountTypeOrder, h1, h2, h3, h4]
  · intro l
    exact ⟨(sortByKey_sorted_perm getOwnerOrder l).1,
      (sortByKey_sorted_perm getOwnerOrder l).2,
      sortByKey_unknown_last getOwnerOrder getOwnerOrder_le l,
      fun v => filter_sortByKey getOwnerOrder v l⟩
  · intro l
    exact ⟨(sortByKey_sorted_perm getAccountTypeOrder l).1,
      (sortByKey_sorted_perm getAccountTypeOrder l).2,
      sortByKey_unknown_last getAccountTypeOrder getAccountTypeOrder_le l,
      fun v => filter_sortByKey getAccountTypeOrder v l⟩

/-- C5 witness: the fallback branch evaluated at the unknown owner
"기타". -/
theorem c5_canonical_ordering_witness : getOwnerOrder "기타" = 999 :=
  c5_canonical_ordering.2.1 "기타" (by decide) (by decide) (by decide)

/-! ## Filter engine frontend path (`PortfolioFilters.tsx`,
`usePortfolio.ts`) -/

/-- The `{owner?, broker?, account_type?}` filter object; an absent field
is `none`. -/
structure Filters where
  owner : Option String
  broker : Option String
  account_type : Option String
  deriving Repr, DecidableEq

/-- JavaScript truthiness of an optional string field: `undefined` (absent)
and the empty string are falsy. -/
def jsTruthy : Option String → Bool
  | none => false
  | some s => !(s == "")

/-- Embedded from `loadFilteredPortfolioData` in `usePortfolio.ts`:
`const hasFilters = filters.owner || filters.broker || filters.account_type`. -/
def hasFilters (f : Filters) : Bool :=
  jsTruthy f.owner || jsTruthy f.broker || jsTruthy f.account_type

/-- Which backend path a data load takes: the filtered endpoints with a
filter object, or the plain summary/performance endpoints. -/
inductive DataPath where
  | filtered (f : Filters)
  | unfiltered
  deriving Repr, DecidableEq

/-- Embedded from `loadFilteredPortfolioData` in `usePortfolio.ts`: with
`hasFilters` truthy it calls the filtered endpoints, otherwise the same
plain endpoints `loadPortfolioData` calls. -/
def loadFilteredPortfolioData (f : Filters) : DataPath :=
  if hasFilters f then .filtered f else .unfiltered

/-- Embedded from `loadPortfolioData` in `usePortfolio.ts`: always the
plain endpoints. -/
def loadPortfolioData : DataPath := .unfiltered

/-- A filter dimension, as passed to `handleFilterChange`. -/
inductive FilterDim where
  | owner
  | broker
  | account_type
  deriving Repr, DecidableEq

/-- Embedded from `handleFilterChange` in `PortfolioFilters.tsx`: selecting
`'전체'` deletes the key from the filter object, any other value sets it. -/
def handleFilterChange (f : Filters) (dim : FilterDim) (value : String) :
    Filters :=
  match dim with
  | .owner =>
      if value = "전체" then { f with owner := none }
      else { f with owner := some value }
  | .broker =>
      if value = "전체" then { f with broker := none }
      else { f with broker := some value }
  | .account_type =>
      if value = "전체" then { f with account_type := none }
      else { f with account_type := some value }

/-- Embedded from `clearAllFilters` in `PortfolioFilters.tsx`: the filters
are reset to the empty object `{}`. -/
def clearAllFilters : Filters := ⟨none, none, none⟩

/-- C6: the empty filter object (all three fields absent) takes the same
unfiltered path as `loadPortfolioData`; selecting `'전체'` for a dimension
deletes that key; selecting `'전체'` for every dimension of any filter
yields exactly the empty object `clearAllFilters` passes, so it too loads
the unfiltered data. -/
theorem c6_empty_filter_identity :
    loadFilteredPortfolioData ⟨none, none, none⟩ = loadPortfolioData ∧
    loadFilteredPortfolioData clearAllFilters = loadPortfolioData ∧
    (∀ f value, value = "전체" →
      (handleFilterChange f .owner value).owner = none ∧
      (handleFilterChange f .broker value).broker = none ∧
      (handleFilterChange f .account_type value).account_type = none) ∧
    (∀ f : Filters,
      handleFilterChange
        (handleFilterChange (handleFilterChange f .owner "전체") .broker "전체")
        .account_type "전체" = clearAllFilters) ∧
    loadFilteredPortfolioData
      (handleFilterChange
        (handleFilterChange
          (handleFilterChange ⟨some "혜란", some "키움", some "ISA"⟩
            .owner "전체") .broker "전체") .account_type "전체")
      = loadPortfolioData := by
  refine ⟨rfl, rfl, ?_, ?_, rfl⟩
  · intro f value hv
    subst hv
    exact ⟨rfl, rfl, rfl⟩
  · intro f
    rfl

/-- C6 witness: the `'전체'`-deletes-the-key conjunct at a concrete
filter. -/
theorem c6_empty_filter_identity_witness :
    (handleFilterChange ⟨some "혜란", none, none⟩ .owner "전체").owner = none :=
  (c6_empty_filter_identity.2.2.1 ⟨some "혜란", none, none⟩ "전체" rfl).1

/-! ## Yearly-returns roll-up (`YearlyReturns.tsx`) -/

/-- The per-year record the yearly-returns view receives (the fields
`totalReturns` reads). -/
structure YearlyReturnsDetail where
  total_dividend : ℚ
  total_sell_profit : ℚ
  total_interest : ℚ
  total_returns : ℚ
  deriving Repr, DecidableEq

/-- The component-wise accumulator of `totalReturns`. -/
structure ReturnsTotals where
  dividend : ℚ
  sell_profit : ℚ
  interest : ℚ
  total : ℚ
  deriving Repr, DecidableEq

/-- Embedded from `YearlyReturns.tsx`: `yearlyData.reduce`, summing the four
components from zero. -/
def totalReturns (yearlyData : List YearlyReturnsDetail) : ReturnsTotals :=
  yearlyData.foldl
    (fun sum year =>
      { dividend := sum.dividend + year.total_dividend
        sell_profit := sum.sell_profit + year.total_sell_profit
        interest := sum.interest + year.total_interest
        total := sum.total + year.total_returns })
    { dividend := 0, sell_profit := 0, interest := 0, total := 0 }

/-- Folding records whose total is the sum of their components, from an
accumulator with the same property, preserves the property. -/
lemma foldl_returns_consistent (l : List YearlyReturnsDetail) :
    ∀ init : ReturnsTotals,
      init.total = init.dividend + init.sell_profit + init.interest →
      (∀ y ∈ l, y.total_returns
        = y.total_dividend + y.total_sell_profit + y.total_interest) →
      (l.foldl
        (fun sum year =>
          { dividend := sum.dividend + year.total_dividend
            sell_profit := sum.sell_profit + year.total_sell_profit
            interest := sum.interest + year.total_interest
            total := sum.total + year.total_returns : ReturnsTotals })
        init).total
        = (l.foldl
          (fun sum year =>
            { dividend := sum.dividend + year.total_dividend
              sell_profit := sum.sell_profit + year.total_sell_profit
              interest := sum.interest + year.total_interest
              total := sum.total + year.total_returns : ReturnsTotals })
          init).dividend
          + (l.foldl
            (fun sum year =>
              { dividend := sum.dividend + year.total_dividend
                sell_profit := sum.sell_profit + year.total_sell_profit
                interest := sum.interest + year.total_interest
                total := sum.total + year.total_returns : ReturnsTotals })
            init).sell_profit
          + (l.foldl
            (fun sum year =>
              { dividend := sum.dividend + year.total_dividend
                sell_profit := sum.sell_profit + year.total_sell_profit
                interest := sum.interest + year.total_interest
                total := sum.total + year.total_returns : ReturnsTotals })
            init).interest := by
  induction l with
  | nil => intro init hinit _; simpa using hinit
  | cons y ys ih =>
      intro init hinit hl
      simp only [List.foldl_cons]
      refine ih _ ?_ (fun z hz => hl z (by simp [hz]))
      have hy := hl y (by simp)
      simp only [hy, hinit]
      ring

/-- C7: if every yearly record satisfies `total_returns = total_dividend +
total_sell_profit + total_interest`, then the aggregated totals produced by
`totalReturns` satisfy `total = dividend + sell_profit + interest`. -/
theorem c7_yearly_rollup_consistent (l : List YearlyReturnsDetail)
    (h : ∀ y ∈ l, y.total_returns
      = y.total_dividend + y.total_sell_profit + y.total_interest) :
    (totalReturns l).total
      = (totalReturns l).dividend + (totalReturns l).sell_profit
        + (totalReturns l).interest :=
  foldl_returns_consistent l _ (by norm_num) h

/-- C7 witness: the roll-up identity at a concrete two-record list. -/
theorem c7_yearly_rollup_consistent_witness :
    (totalReturns [⟨1, 2, 3, 6⟩, ⟨10, 20, 30, 60⟩]).total
      = (totalReturns [⟨1, 2, 3, 6⟩, ⟨10, 20, 30, 60⟩]).dividend
        + (totalReturns [⟨1, 2, 3, 6⟩, ⟨10, 20, 30, 60⟩]).sell_profit
        + (totalReturns [⟨1, 2, 3, 6⟩, ⟨10, 20, 30, 60⟩]).interest :=
  c7_yearly_rollup_consistent [⟨1, 2, 3, 6⟩, ⟨10, 20, 30, 60⟩]
    (by intro y hy; fin_cases hy <;> norm_num)

/-! ## Asset-allocation ratios (spec-modelled Summary aggregation) -/

/-- A holding as the Summary aggregation sees it: its current market value
(0 when the price lookup was unavailable, per spec §4.4). -/
structure Holding where
  current_value : ℚ
  deriving Repr, DecidableEq

/-- Modelled from the spec: the Summary aggregation's asset allocation
(spec §4.5; the backend Summary engine is not in the frontend source tree).
It sums cash balances and current stock values across the accounts in
scope and computes the cash and stock ratios against the total balance,
with the same zero-denominator guard the spec prescribes for
`return_rate` (0 instead of dividing by zero). -/
def assetAllocation (cashBalances : List ℚ) (holdings : List Holding) :
    ℚ × ℚ :=
  let cash := cashBalances.sum
  let stock := (holdings.map Holding.current_value).sum
  let total := cash + stock
  if 0 < total then (cash / total * 100, stock / total * 100) else (0, 0)

/-- C8 counterexample: a non-empty holding set consisting of one holding of
current value 0 (e.g. its price lookup was unavailable) with no cash has
`cash_ratio + stock_ratio = 0`, which is not within 0.1 of 100. -/
theorem c8_ratios_counterexample :
    ¬ (|(assetAllocation [] [⟨0⟩]).1 + (assetAllocation [] [⟨0⟩]).2 - 100|
        ≤ 1 / 10) := by
  norm_num [assetAllocation]

/-- C8 (amended): for every cash-balance list and holding set whose total
balance is positive, `cash_ratio + stock_ratio` equals 100 exactly, hence
within the 0.1 tolerance. -/
theorem c8_ratios_sum_100 (cashBalances : List ℚ) (holdings : List Holding)
    (h : 0 < cashBalances.sum + (holdings.map Holding.current_value).sum) :
    (assetAllocation cashBalances holdings).1
        + (assetAllocation cashBalances holdings).2 = 100 ∧
    |(assetAllocation cashBalances holdings).1
        + (assetAllocation cashBalances holdings).2 - 100| ≤ 1 / 10 := by
  have htotal : cashBalances.sum + (holdings.map Holding.current_value).sum ≠ 0 :=
    ne_of_gt h
  have hsum : (assetAllocation cashBalances holdings).1
      + (assetAllocation cashBalances holdings).2 = 100 := by
    simp only [assetAllocation, if_pos h]
    field_simp
    ring
  exact ⟨hsum, by rw [hsum]; norm_num⟩

/-- C8 witness: the amended statement at one holding worth 60 and cash
40. -/
theorem c8_ratios_sum_100_witness :
    (assetAllocation [40] [⟨60⟩]).1 + (assetAllocation [40] [⟨60⟩]).2 = 100 :=
  (c8_ratios_sum_100 [40] [⟨60⟩] (by norm_num)).1

/-! ## Frontend logger buffer (`logger.ts`) -/

/-- Embedded from `logger.ts`: `private maxLogs = 1000`. -/
def maxLogs : ℕ := 1000

/-- The JavaScript `array.slice(-n)`: the `n` most recent elements. -/
def takeRight {α : Type} (l : List α) (n : ℕ) : List α :=
  l.drop (l.length - n)

/-- The logger's state: the in-memory `logs` array and the contents written
to the `app_logs` localStorage key. Entries are kept abstract (`α`): the
claim is about the buffer discipline, not entry contents. -/
structure LoggerState (α : Type) where
  logs : List α
  storage : List α
  deriving Repr, DecidableEq

/-- The logger before any log call: empty array, no stored logs. -/
def initLogger {α : Type} : LoggerState α := ⟨[], []⟩

/-- Embedded from `Logger.addLog` in `logger.ts`: push the entry; if the
array now exceeds `maxLogs`, shift off the oldest entry; then rewrite the
`app_logs` localStorage key with `logs.slice(-100)`. Every level method
(`debug`/`info`/`warn`/`error`) funnels its entry through this. -/
def addLog {α : Type} (st : LoggerState α) (e : α) : LoggerState α :=
  let pushed := st.logs ++ [e]
  let logs := if maxLogs < pushed.length then pushed.drop 1 else pushed
  { logs := logs, storage := takeRight logs 100 }

/-- The logger state after a sequence of log calls from the initial
state. -/
def runLogger {α : Type} (entries : List α) : LoggerState α :=
  entries.foldl addLog initLogger

lemma runLogger_concat {α : Type} (es : List α) (e : α) :
    runLogger (es ++ [e]) = addLog (runLogger es) e := by
  simp [runLogger, List.foldl_append]

/-- Dropping at most the length of the left part of an append with a
singleton distributes over the left part. -/
lemma drop_append_singleton {α : Type} (l : List α) (e : α) (n : ℕ)
    (h : n ≤ l.length) : (l ++ [e]).drop n = l.drop n ++ [e] := by
  rw [List.drop_append_eq_append_drop, Nat.sub_eq_zero_of_le h, List.drop_zero]

/-- After any call sequence the in-memory array is exactly the most recent
`maxLogs` entries, in insertion order. -/
lemma runLogger_logs {α : Type} (es : List α) :
    (runLogger es).logs = takeRight es maxLogs := by
  induction es using List.reverseRecOn with
  | nil => rfl
  | append_singleton es e ih =>
      rw [runLogger_concat]
      simp only [takeRight, maxLogs, List.length_append, List.length_singleton]
        at ih ⊢
      have hlen1000 : ((runLogger es).logs).length
          = es.length - (es.length - 1000) := by
        rw [ih, List.length_drop]
      by_cases hlen : 1000 ≤ es.length
      · have hcond : maxLogs < ((runLogger es).logs ++ [e]).length := by
          simp only [List.length_append, List.length_singleton, hlen1000,
            maxLogs]
          omega
        have hstep : (addLog (runLogger es) e).logs
            = ((runLogger es).logs ++ [e]).drop 1 := by
          simp only [addLog, if_pos hcond]
        rw [hstep, ih,
          drop_append_singleton _ _ 1 (by rw [List.length_drop]; omega),
          List.drop_drop,
          drop_append_singleton _ _ (es.length + 1 - 1000) (by omega)]
        have harith : es.length - 1000 + 1 = es.length + 1 - 1000 := by
          omega
        rw [harith]
      · have hcond : ¬ maxLogs < ((runLogger es).logs ++ [e]).length := by
          simp only [List.length_append, List.length_singleton, hlen1000,
            maxLogs]
          omega
        have hstep : (addLog (runLogger es) e).logs
            = (runLogger es).logs ++ [e] := by
          simp only [addLog, if_neg hcond]
        have h0 : es.length - 1000 = 0 := by omega
        have h0' : es.length + 1 - 1000 = 0 := by omega
        rw [hstep, ih, h0, h0', List.drop_zero, List.drop_zero]

/-- The storage slot always holds the 100 most recent in-memory entries. -/
lemma runLogger_storage {α : Type} (es : List α) :
    (runLogger es).storage = takeRight ((runLogger es).logs) 100 := by
  induction es using List.reverseRecOn with
  | nil => rfl
  | append_singleton es e _ => rw [runLogger_concat]; rfl

/-- C9: after every sequence of log calls, the in-memory list holds at most
1000 entries — exactly the most recent ones, oldest dropped first, in
insertion order — and the `app_logs` localStorage contents are the at most
100 most recent entries. -/
theorem c9_logger_buffer_bound (α : Type) (es : List α) :
    (runLogger es).logs.length ≤ maxLogs ∧
    (runLogger es).logs = es.drop (es.length - maxLogs) ∧
    (runLogger es).storage = takeRight ((runLogger es).logs) 100 ∧
    (runLogger es).storage.length ≤ 100 := by
  refine ⟨?_, ?_, runLogger_storage es, ?_⟩
  · rw [runLogger_logs]
    simp only [takeRight, List.length_drop]
    omega
  · rw [runLogger_logs]; rfl
  · rw [runLogger_storage]
    simp only [takeRight, List.length_drop]
    omega

/-! ## Transaction-history pagination (`TransactionHistory.tsx`) -/

/-- Embedded from `TransactionHistory.tsx`: `const [itemsPerPage] =
useState(50)`. -/
def itemsPerPage : ℕ := 50

/-- Embedded from `TransactionHistory.tsx`:
`Math.ceil(transactions.length / itemsPerPage)` as the natural-number
ceiling division. -/
def totalPages {α : Type} (transactions : List α) : ℕ :=
  (transactions.length + itemsPerPage - 1) / itemsPerPage

/-- Embedded from `TransactionHistory.tsx`: the slice shown on 1-based page
`page`, `transactions.slice((page-1)*50, (page-1)*50 + 50)`. -/
def currentTransactions {α : Type} (transactions : List α) (page : ℕ) :
    List α :=
  (transactions.drop ((page - 1) * itemsPerPage)).take itemsPerPage

/-- The displayed pages 1, …, totalPages in order. -/
def allPages {α : Type} (transactions : List α) : List (List α) :=
  (List.range (totalPages transactions)).map
    fun i => currentTransactions transactions (i + 1)

/-- Peeling one page off the front of the pagination. -/
lemma allPages_cons {α : Type} (txs : List α) (h : txs ≠ []) :
    allPages txs = txs.take itemsPerPage :: allPages (txs.drop itemsPerPage) := by
  have hlen : 1 ≤ txs.length := List.length_pos.mpr h
  have htp : totalPages txs = totalPages (txs.drop itemsPerPage) + 1 := by
    simp only [totalPages, itemsPerPage, List.length_drop]
    omega
  rw [allPages, htp, List.range_succ_eq_map, List.map_cons, List.map_map]
  refine congrArg₂ List.cons rfl ?_
  rw [allPages]
  refine List.map_congr_left fun i _ => ?_
  simp only [Function.comp_apply, currentTransactions, itemsPerPage,
    Nat.succ_sub_one, Nat.add_sub_cancel, List.drop_drop]
  have harith : (i + 1) * 50 = 50 + i * 50 := by ring
  rw [harith]

/-- Concatenating the displayed pages reproduces the transaction list. -/
lemma allPages_join {α : Type} (txs : List α) : (allPages txs).flatten = txs := by
  suffices H : ∀ (n : ℕ) (l : List α), l.length = n → (allPages l).flatten = l from
    H txs.length txs rfl
  intro n
  induction n using Nat.strong_induction_on with
  | _ n ih =>
      intro l hlen
      rcases eq_or_ne l [] with rfl | hne
      · have h0 : totalPages ([] : List α) = 0 := by
          norm_num [totalPages, itemsPerPage]
        simp [allPages, h0]
      · have hpos : 1 ≤ l.length := List.length_pos.mpr hne
        rw [allPages_cons l hne, List.flatten_cons,
          ih (l.drop itemsPerPage).length
            (by rw [List.length_drop]; simp only [itemsPerPage]; omega)
            (l.drop itemsPerPage) rfl,
          List.take_append_drop]

/-- C10: with 50 items per page, `totalPages` is the ceiling of
`length / 50` (the length fits within `totalPages` pages but exceeds one
page fewer), every page in range is non-empty and holds at most 50
transactions, and concatenating pages 1, …, totalPages in order reproduces
the transaction list exactly — so the slices are pairwise disjoint, cover
every transaction exactly once, and preserve list order. -/
theorem c10_pagination_partition (α : Type) (txs : List α) :
    (allPages txs).flatten = txs ∧
    (txs.length ≤ totalPages txs * itemsPerPage ∧
      totalPages txs * itemsPerPage < txs.length + itemsPerPage) ∧
    (∀ i, i < totalPages txs → currentTransactions txs (i + 1) ≠ []) ∧
    (∀ p, (currentTransactions txs p).length ≤ itemsPerPage) := by
  refine ⟨allPages_join txs, ?_, ?_, fun p => ?_⟩
  · simp only [totalPages, itemsPerPage]
    omega
  · intro i hi
    simp only [totalPages, itemsPerPage] at hi
    refine List.length_pos.mp ?_
    simp only [currentTransactions, itemsPerPage, Nat.add_sub_cancel,
      List.length_take, List.length_drop]
    omega
  · simpa only [currentTransactions] using
      List.length_take_le itemsPerPage (txs.drop ((p - 1) * itemsPerPage))

/-- C10 witness: on a three-transaction list there is a single page and it
is non-empty. -/
theorem c10_pagination_partition_witness :
    currentTransactions [0, 1, 2] (0 + 1) ≠ [] :=
  (c10_pagination_partition ℕ [0, 1, 2]).2.2.1 0
    (by norm_num [totalPages, itemsPerPage])

end StockMento
